import Mathlib

/-!
Shallow embedding of the NeonTodo data layer: the query builder, the mutation
operations (src/src/data/repo.ts) and the backup codec (src/src/data/backup.ts),
over a purely functional model of the SQLite store (tables are lists of rows,
`src-tauri/migrations/001_init.sql`).  Timestamps and fresh ids are passed in as
parameters (they come from `nowIso()` / `crypto.randomUUID()` in the source).
SQL TEXT values are `String`, SQL INTEGER values are `Int` (notably the stored
`completed` flag, which the source binds as 0/1 and filters with `= 0` / `= 1`).
-/

namespace NeonTodo

/-- Row of the `projects` table (`id PK, name, color, icon, sort_order, created_at`). -/
structure Project where
  id : String
  name : String
  color : Option String
  icon : Option String
  sortOrder : Int
  createdAt : String
deriving DecidableEq, Repr

/-- Row of the `tasks` table (`id PK, project_id, title, notes, completed, priority,
due_at, sort_order, created_at, updated_at`). -/
structure Task where
  id : String
  projectId : Option String
  title : String
  notes : String
  completed : Int
  priority : Int
  dueAt : Option String
  sortOrder : Int
  createdAt : String
  updatedAt : String
deriving DecidableEq, Repr

/-- Row of the `tags` table (`id PK, name UNIQUE`). -/
structure Tag where
  id : String
  name : String
deriving DecidableEq, Repr

/-- Row of the `task_tags` table (`task_id, tag_id, PK(task_id, tag_id)`). -/
structure TaskTag where
  taskId : String
  tagId : String
deriving DecidableEq, Repr

/-- The whole persistent store: the four tables. -/
structure Store where
  projects : List Project
  tasks : List Task
  tags : List Tag
  taskTags : List TaskTag
deriving DecidableEq, Repr

def emptyStore : Store := ⟨[], [], [], []⟩

/-- Model of JavaScript `String.prototype.toLowerCase` (and SQL `LOWER`):
lower each character. -/
def lowerStr (s : String) : String :=
  (s.data.map Char.toLower).asString

/-- Model of JavaScript `String.prototype.trim`: drop leading and trailing
whitespace. -/
def trimStr (s : String) : String :=
  (((s.data.dropWhile Char.isWhitespace).reverse.dropWhile Char.isWhitespace).reverse).asString

/-- Reads a decimal digit string back into a number; the verification inverse
of `Nat.repr`, used to show distinct numbers give distinct `" (N)"` suffixes. -/
def parseDigits (acc : Nat) : List Char → Nat
  | [] => acc
  | c :: cs => parseDigits (acc * 10 + (c.toNat - 48)) cs

/-- Lexicographic comparison of character lists: the model of SQLite TEXT
comparison (BINARY collation; it agrees with byte order on the ASCII data the
store holds). -/
def charListLt : List Char → List Char → Bool
  | [], [] => false
  | [], _ :: _ => true
  | _ :: _, [] => false
  | c :: cs, d :: ds => decide (c < d) || (c == d && charListLt cs ds)

def strLt (a b : String) : Bool := charListLt a.data b.data

def strLe (a b : String) : Bool := strLt a b || a == b

/-- Insert into a `le`-sorted list, keeping earlier elements first on ties. -/
def insertLe {α : Type} (le : α → α → Bool) (a : α) : List α → List α
  | [] => [a]
  | b :: bs => if le b a then b :: insertLe le a bs else a :: b :: bs

/-- Stable insertion sort: the model of `ORDER BY` over a row list. -/
def sortBy {α : Type} (le : α → α → Bool) : List α → List α
  | [] => []
  | a :: as => insertLe le a (sortBy le as)

/-- The `SmartView` union type from `src/types.ts`. -/
inductive SmartView where
  | today
  | upcoming
  | all
  | completed
deriving DecidableEq, Repr

/-- The parameter object of `listTasks`. -/
structure ListTasksParams where
  view : SmartView
  projectId : Option String := none
  search : String := ""
  tagIds : List String := []

/-- The two `t.completed` clauses of `listTasks`: `completed = 1` for the
completed view, `completed = 0` for today/upcoming, nothing for `all`. -/
def completedOk (view : SmartView) (t : Task) : Bool :=
  match view with
  | .completed => t.completed == 1
  | .today => t.completed == 0
  | .upcoming => t.completed == 0
  | .all => true

/-- The due-date clauses of `listTasks`: `due_at = $today` for today,
`(due_at IS NULL OR due_at > $today)` for upcoming, nothing otherwise.
SQL `due_at = $today` is false on a NULL `due_at`; TEXT comparison on
`YYYY-MM-DD` strings is lexicographic. -/
def dueOk (view : SmartView) (today : String) (t : Task) : Bool :=
  match view with
  | .today => t.dueAt == some today
  | .upcoming =>
    match t.dueAt with
    | none => true
    | some d => strLt today d
  | .all => true
  | .completed => true

/-- JavaScript truthiness of `params.projectId`: present and not the empty
string.  Only then does `listTasks` add the project clause and switch to the
project ordering. -/
def projectScoped : Option String → Bool
  | some pid => !(pid == "")
  | none => false

/-- The `t.project_id = $pid` clause, added only when `params.projectId` is
truthy.  A task with NULL `project_id` never matches it. -/
def projectOk (pid : Option String) (t : Task) : Bool :=
  if projectScoped pid then t.projectId == pid else true

/-- Whether the character list `pat` occurs at the head of `hay`. -/
def leadMatch : List Char → List Char → Bool
  | _, [] => true
  | [], _ :: _ => false
  | c :: cs, d :: ds => c == d && leadMatch cs ds

/-- Whether the character list `pat` occurs contiguously anywhere in `hay`. -/
def strContains : List Char → List Char → Bool
  | [], pat => pat.isEmpty
  | c :: cs, pat => leadMatch (c :: cs) pat || strContains cs pat

/-- The free-text clause `(title LIKE '%q%' OR notes LIKE '%q%')` with
`q = search.trim()`, skipped when the trimmed search is empty.  SQLite `LIKE`
is case-insensitive, modelled by lowering both sides; the model treats the
search text literally (no `%`/`_` wildcards inside it). -/
def searchOk (search : String) (t : Task) : Bool :=
  let q := trimStr search
  if q = "" then true
  else
    strContains (lowerStr t.title).data (lowerStr q).data ||
      strContains (lowerStr t.notes).data (lowerStr q).data

/-- The tag filter of `listTasks`: `ids = tagIds.filter(Boolean)`; when non-empty,
`t.id IN (SELECT task_id FROM task_tags WHERE tag_id IN ids GROUP BY task_id
HAVING COUNT(DISTINCT tag_id) = ids.length)`. -/
def tagOk (assocs : List TaskTag) (tagIds : List String) (t : Task) : Bool :=
  let ids := tagIds.filter (fun x => !(x == ""))
  if ids.isEmpty then true
  else
    let matching :=
      ((assocs.filter (fun a => a.taskId == t.id && ids.contains a.tagId)).map TaskTag.tagId).dedup
    matching.length == ids.length

/-- The set of tag ids attached to a task: the `tag_id`s of its `task_tags`
rows. -/
def taskTagIds (assocs : List TaskTag) (t : Task) : List String :=
  (assocs.filter (fun a => a.taskId == t.id)).map TaskTag.tagId

/-- Ordering used when project-scoped: `ORDER BY sort_order ASC, created_at ASC`. -/
def taskLeProject (a b : Task) : Bool :=
  decide (a.sortOrder < b.sortOrder) ||
    (decide (a.sortOrder = b.sortOrder) && strLe a.createdAt b.createdAt)

def dueRank (t : Task) : Nat := if t.dueAt = none then 1 else 0

def dueKey (t : Task) : String := t.dueAt.getD ""

/-- Smart-view ordering: `ORDER BY CASE WHEN due_at IS NULL THEN 1 ELSE 0 END,
due_at ASC, sort_order ASC, created_at ASC`. -/
def taskLeSmart (a b : Task) : Bool :=
  decide (dueRank a < dueRank b) ||
    (decide (dueRank a = dueRank b) &&
      (strLt (dueKey a) (dueKey b) ||
        (dueKey a == dueKey b && taskLeProject a b)))

/-- Project ordering `ORDER BY sort_order ASC, created_at ASC`. -/
def projectLe (a b : Project) : Bool :=
  decide (a.sortOrder < b.sortOrder) ||
    (decide (a.sortOrder = b.sortOrder) && strLe a.createdAt b.createdAt)

def taskLeCreated (a b : Task) : Bool := strLe a.createdAt b.createdAt

def tagLeName (a b : Tag) : Bool := strLe a.name b.name

/-- Model of `listTasks` (repo.ts, lines 176-249): the conjunction of the view,
project, search and tag clauses, then the view-dependent ordering.  `today` is
the value `todayIsoDate()` returns during the call. -/
def listTasks (s : Store) (ps : ListTasksParams) (today : String) : List Task :=
  let filtered := s.tasks.filter (fun t =>
    completedOk ps.view t && dueOk ps.view today t && projectOk ps.projectId t &&
      searchOk ps.search t && tagOk s.taskTags ps.tagIds t)
  if projectScoped ps.projectId then sortBy taskLeProject filtered
  else sortBy taskLeSmart filtered

/-- Helper for `SELECT COALESCE(MAX(sort_order), -1) + 1`. -/
def maxSortOrder (xs : List Int) : Int := xs.foldl max (-1)

structure CreateTaskInput where
  title : String
  projectId : Option String := none

/-- Model of `createTask` (repo.ts, lines 269-303): trims the title, takes the
next sort order within the `project_id IS $1` scope, inserts the row.  The
source performs no validation of the trimmed title. -/
def createTask (s : Store) (input : CreateTaskInput) (id createdAt : String) :
    Store × Task :=
  let title := trimStr input.title
  let projectId := input.projectId
  let sortOrder :=
    maxSortOrder ((s.tasks.filter (fun t => t.projectId == projectId)).map Task.sortOrder) + 1
  let t : Task :=
    { id := id, projectId := projectId, title := title, notes := "", completed := 0,
      priority := 0, dueAt := none, sortOrder := sortOrder,
      createdAt := createdAt, updatedAt := createdAt }
  ({ s with tasks := s.tasks ++ [t] }, t)

structure CreateProjectInput where
  name : String
  color : Option String := none
  icon : Option String := none

/-- The suffixed candidate name built by the collision loop of `createProject`:
the JavaScript template `` `${baseName} (${n})` ``. -/
def suffixName (base : String) (n : Nat) : String :=
  base ++ " (" ++ Nat.repr n ++ ")"

/-- The lowercased collision test of the loop.  The source lowercases the whole
template; since `Char.toLower` fixes digits, the space and the parentheses,
this equals appending the suffix to the lowered base (lemma
`lowerStr_suffixName`). -/
def lowerCand (baseLower : String) (n : Nat) : String :=
  baseLower ++ " (" ++ Nat.repr n ++ ")"

/-- The `while (existingLower.has(...)) n++` loop of `createProject`, with a
fuel bound.  The caller passes fuel `existingLower.length + 1`, which always
suffices because the candidates are pairwise distinct strings. -/
def firstFreeFrom (existingLower : List String) (baseLower : String) :
    Nat → Nat → Nat
  | n, 0 => n
  | n, fuel + 1 =>
    if existingLower.contains (lowerCand baseLower n) then
      firstFreeFrom existingLower baseLower (n + 1) fuel
    else n

/-- Model of `createProject` (repo.ts, lines 104-129): next global sort order,
trim-and-validate the name, disambiguate a case-insensitive collision with a
`" (N)"` suffix starting at 2, insert the row. -/
def createProject (s : Store) (input : CreateProjectInput) (id createdAt : String) :
    Except String (Store × Project) :=
  let sortOrder := maxSortOrder (s.projects.map Project.sortOrder) + 1
  let baseName := trimStr input.name
  if baseName = "" then Except.error "Project name required"
  else
    let existingLower := s.projects.map (fun p => lowerStr p.name)
    let name :=
      if existingLower.contains (lowerStr baseName) then
        suffixName baseName
          (firstFreeFrom existingLower (lowerStr baseName) 2 (existingLower.length + 1))
      else baseName
    let p : Project :=
      { id := id, name := name, color := input.color, icon := input.icon,
        sortOrder := sortOrder, createdAt := createdAt }
    Except.ok ({ s with projects := s.projects ++ [p] }, p)

/-- Model of `ensureInboxProjectId` (repo.ts, lines 138-153): look up by the
`icon = 'inbox'` marker (ordered by `sort_order, created_at`), then by
case-insensitive name, else insert a fresh Inbox project. -/
def ensureInboxProjectId (s : Store) (freshId now : String) : Store × String :=
  match (sortBy projectLe s.projects).find? (fun p => p.icon == some "inbox") with
  | some p => (s, p.id)
  | none =>
    match s.projects.find? (fun p => lowerStr p.name == "inbox") with
    | some p => (s, p.id)
    | none =>
      let inbox : Project :=
        { id := freshId, name := "Inbox", color := some "#29f0ff", icon := some "inbox",
          sortOrder := 0, createdAt := now }
      ({ s with projects := s.projects ++ [inbox] }, freshId)

/-- Model of `deleteProjectMoveToInbox` (repo.ts, lines 155-174).  Returns the
resulting store together with `some errorMessage` when the call throws.
`fault` injects a storage failure inside the BEGIN/COMMIT transaction: the
transaction then rolls back, so the store is left as it was at BEGIN (after
`ensureInboxProjectId`, which runs before the transaction) and the error
propagates. -/
def deleteProjectMoveToInbox (s : Store) (projectId freshId now : String)
    (fault : Bool) : Store × Option String :=
  match s.projects.find? (fun p => p.id == projectId) with
  | none => (s, none)
  | some p =>
    if p.icon = some "inbox" ∨ lowerStr p.name = "inbox" then
      (s, some "Inbox cannot be deleted")
    else
      let resolved := ensureInboxProjectId s freshId now
      let s1 := resolved.1
      let inboxId := resolved.2
      if fault then (s1, some "transaction failed")
      else
        ({ s1 with
            tasks := s1.tasks.map (fun t =>
              if t.projectId = some projectId then
                { t with projectId := some inboxId, updatedAt := now }
              else t),
            projects := s1.projects.filter (fun q => !(q.id == projectId)) },
          none)

/-- Model of `reorderTasks` (repo.ts, lines 251-267): one UPDATE per listed id,
setting `sort_order` to the id's list index and refreshing `updated_at`,
guarded by `project_id IS $4` (NULL matches NULL). -/
def reorderTasks (s : Store) (projectId : Option String) (orderedTaskIds : List String)
    (now : String) : Store :=
  { s with
    tasks :=
      (orderedTaskIds.enum).foldl
        (fun ts p =>
          ts.map (fun t =>
            if t.id == p.2 && t.projectId == projectId then
              { t with sortOrder := (p.1 : Int), updatedAt := now }
            else t))
        s.tasks }

/-- The backup document (`BackupV1` in backup.ts). -/
structure Bundle where
  version : Nat
  exportedAt : String
  projects : List Project
  tasks : List Task
  tags : List Tag
  task_tags : List TaskTag
deriving DecidableEq, Repr

/-- Model of `exportBundle` (backup.ts, lines 34-52): snapshot the four tables,
projects ordered by `(sort_order, created_at)`, tasks by `created_at`, tags by
name, associations unordered. -/
def exportBundle (s : Store) (exportedAt : String) : Bundle :=
  { version := 1
    exportedAt := exportedAt
    projects := sortBy projectLe s.projects
    tasks := sortBy taskLeCreated s.tasks
    tags := sortBy tagLeName s.tags
    task_tags := s.taskTags }

/-- One `INSERT OR REPLACE INTO projects` of `importBundle`: skipped when the
id or name is falsy (empty); otherwise the row with the same primary key is
replaced.  With `PRAGMA foreign_keys = ON` the delete half of a REPLACE fires
the `ON DELETE SET NULL` action of `tasks.project_id`. -/
def upsertProject (s : Store) (p : Project) : Store :=
  if p.id = "" ∨ p.name = "" then s
  else
    { projects := s.projects.filter (fun q => !(q.id == p.id)) ++ [p]
      tasks :=
        if s.projects.any (fun q => q.id == p.id) then
          s.tasks.map (fun t =>
            if t.projectId = some p.id then { t with projectId := none } else t)
        else s.tasks
      tags := s.tags
      taskTags := s.taskTags }

/-- One `INSERT OR REPLACE INTO tasks`: skipped when the id or title is falsy;
replacing an existing task fires `ON DELETE CASCADE` on its `task_tags` rows. -/
def upsertTask (s : Store) (t : Task) : Store :=
  if t.id = "" ∨ t.title = "" then s
  else
    { projects := s.projects
      tasks := s.tasks.filter (fun q => !(q.id == t.id)) ++ [t]
      tags := s.tags
      taskTags :=
        if s.tasks.any (fun q => q.id == t.id) then
          s.taskTags.filter (fun a => !(a.taskId == t.id))
        else s.taskTags }

/-- One `INSERT OR REPLACE INTO tags`: skipped when the id or name is falsy.
REPLACE deletes every row breaking a uniqueness constraint - same `id` (PK) or
same `name` (UNIQUE) - and each such delete cascades to `task_tags`. -/
def upsertTag (s : Store) (g : Tag) : Store :=
  if g.id = "" ∨ g.name = "" then s
  else
    { projects := s.projects
      tasks := s.tasks
      tags := s.tags.filter (fun q => !(q.id == g.id || q.name == g.name)) ++ [g]
      taskTags := s.taskTags.filter (fun a =>
        !(s.tags.any (fun q => (q.id == g.id || q.name == g.name) && q.id == a.tagId))) }

/-- One `INSERT OR REPLACE INTO task_tags`: skipped when either id is falsy;
keyed by the composite pair, which is the whole row. -/
def upsertTaskTag (s : Store) (a : TaskTag) : Store :=
  if a.taskId = "" ∨ a.tagId = "" then s
  else { s with taskTags := s.taskTags.filter (fun q => !(q == a)) ++ [a] }

def importProjects (s : Store) (ps : List Project) : Store := ps.foldl upsertProject s

def importTasks (s : Store) (ts : List Task) : Store := ts.foldl upsertTask s

def importTags (s : Store) (gs : List Tag) : Store := gs.foldl upsertTag s

def importTaskTags (s : Store) (as : List TaskTag) : Store := as.foldl upsertTaskTag s

/-- Model of `importBundle` (backup.ts, lines 60-106): one transaction that
upserts every project, then task, then tag, then association row. -/
def importBundle (s : Store) (b : Bundle) : Store :=
  importTaskTags (importTags (importTasks (importProjects s b.projects) b.tasks) b.tags)
    b.task_tags

/-! Concrete stores used by counterexamples and witnesses. -/

/-- A completed task inside project `p1`. -/
def cxTask : Task := ⟨"t1", some "p1", "T", "", 1, 0, none, 0, "a", "a"⟩

/-- A store with one non-inbox project holding one completed task. -/
def cxStore : Store := ⟨[⟨"p1", "Work", none, none, 0, "a"⟩], [cxTask], [], []⟩

def wpInbox : Project := ⟨"p1", "Inbox", none, some "inbox", 0, "a"⟩

def wpWork : Project := ⟨"p2", "Work", none, none, 1, "b"⟩

def wTask : Task := ⟨"t1", some "p2", "T", "", 0, 0, none, 0, "a", "a"⟩

/-- A store with an inbox project and a second project holding one task. -/
def wStore : Store := ⟨[wpInbox, wpWork], [wTask], [], []⟩

/-- A store with a single project named `Work`. -/
def c6Store : Store := ⟨[⟨"p1", "Work", none, none, 0, "a"⟩], [], [], []⟩

/-- A small well-formed store exercising all four tables. -/
def c9Store : Store :=
  ⟨[⟨"p1", "Inbox", some "#29f0ff", some "inbox", 0, "a"⟩,
    ⟨"p2", "Work", none, none, 1, "b"⟩],
   [⟨"t1", some "p2", "T", "note", 0, 1, some "2024-06-01", 0, "a", "a"⟩],
   [⟨"g1", "work"⟩],
   [⟨"t1", "g1"⟩]⟩

/-- A store holding one task whose title is the empty string (as `createTask`
can produce). -/
def c9BadStore : Store := ⟨[], [⟨"t1", none, "", "", 0, 0, none, 0, "a", "a"⟩], [], []⟩

def c8a : Task := ⟨"id1", some "p", "A", "", 0, 0, none, 0, "ca", "ca"⟩

def c8b : Task := ⟨"id2", some "p", "B", "", 0, 0, none, 1, "cb", "cb"⟩

def c8c : Task := ⟨"id3", some "p", "C", "", 0, 0, none, 2, "cc", "cc"⟩

/-- A store whose project `p` holds exactly the tasks `id1`, `id2`, `id3`. -/
def c8Store : Store := ⟨[⟨"p", "P", none, none, 0, "ca"⟩], [c8a, c8b, c8c], [], []⟩

def wTagT1 : Task := ⟨"t1", none, "A", "", 0, 0, none, 0, "a", "a"⟩

def wTagT2 : Task := ⟨"t2", none, "B", "", 0, 0, none, 0, "b", "b"⟩

/-- A store with two tags: task `t1` carries both, task `t2` only `g1`. -/
def wTagStore : Store :=
  ⟨[], [wTagT1, wTagT2],
   [⟨"g1", "work"⟩, ⟨"g2", "urgent"⟩],
   [⟨"t1", "g1"⟩, ⟨"t1", "g2"⟩, ⟨"t2", "g1"⟩]⟩

/-! Basic facts about the sort and the filter clauses. -/

theorem insertLe_perm {α : Type} (le : α → α → Bool) (a : α) (l : List α) :
    (insertLe le a l).Perm (a :: l) := by
  induction l with
  | nil => exact List.Perm.refl _
  | cons b bs ih =>
    by_cases h : le b a = true
    · simpa [insertLe, h] using (ih.cons b).trans (List.Perm.swap a b bs)
    · simp [insertLe, h]

theorem sortBy_perm {α : Type} (le : α → α → Bool) (l : List α) :
    (sortBy le l).Perm l := by
  induction l with
  | nil => exact List.Perm.refl _
  | cons a as ih => exact (insertLe_perm le a (sortBy le as)).trans (ih.cons a)

theorem mem_sortBy {α : Type} {le : α → α → Bool} {a : α} {l : List α} :
    a ∈ sortBy le l ↔ a ∈ l :=
  (sortBy_perm le l).mem_iff

theorem charListLt_iff_lt (cs ds : List Char) :
    charListLt cs ds = true ↔ List.lt cs ds := by
  induction cs generalizing ds with
  | nil =>
    cases ds with
    | nil =>
      simp only [charListLt, Bool.false_eq_true, false_iff]
      intro h; cases h
    | cons d ds =>
      simp only [charListLt, true_iff]
      exact List.lt.nil d ds
  | cons c cs ih =>
    cases ds with
    | nil =>
      simp only [charListLt, Bool.false_eq_true, false_iff]
      intro h; cases h
    | cons d ds =>
      simp only [charListLt, Bool.or_eq_true, Bool.and_eq_true, decide_eq_true_eq,
        beq_iff_eq, ih]
      constructor
      · rintro (h | ⟨rfl, h⟩)
        · exact List.lt.head _ _ h
        · exact List.lt.tail (lt_irrefl c) (lt_irrefl c) h
      · intro h
        cases h with
        | head _ _ h => exact Or.inl h
        | tail h1 h2 h3 => exact Or.inr ⟨le_antisymm (not_lt.mp h2) (not_lt.mp h1), h3⟩

theorem strLt_iff_lt (a b : String) : strLt a b = true ↔ a < b := by
  have h : a < b ↔ List.lt a.data b.data := by
    rw [String.lt_iff_toList_lt, String.toList]
    exact (List.lt_iff_lex_lt a.data b.data).symm
  rw [h, strLt, charListLt_iff_lt]

theorem searchOk_empty (t : Task) : searchOk "" t = true := by
  have h : trimStr "" = "" := by decide
  simp [searchOk, h]

theorem tagOk_nil (assocs : List TaskTag) (t : Task) : tagOk assocs [] t = true := by
  simp [tagOk]

theorem projectOk_none (t : Task) : projectOk none t = true := by
  simp [projectOk, projectScoped]

theorem projectScoped_some {pid : String} (h : pid ≠ "") :
    projectScoped (some pid) = true := by
  simp [projectScoped, h]

/-- Membership in a `listTasks` result is membership in the tasks table plus
the conjunction of the clauses; the ordering step is a permutation. -/
theorem mem_listTasks (s : Store) (ps : ListTasksParams) (today : String) (t : Task) :
    t ∈ listTasks s ps today ↔
      t ∈ s.tasks ∧ completedOk ps.view t = true ∧ dueOk ps.view today t = true ∧
        projectOk ps.projectId t = true ∧ searchOk ps.search t = true ∧
        tagOk s.taskTags ps.tagIds t = true := by
  unfold listTasks
  by_cases h : projectScoped ps.projectId = true
  · simp [h, mem_sortBy, List.mem_filter, and_assoc]
  · simp [Bool.not_eq_true] at h
    simp [h, mem_sortBy, List.mem_filter, and_assoc]

/-- Claim C7: in the `upcoming` view with no project scope (and no search or
tag filter), `listTasks` returns exactly the non-completed tasks whose
`due_at` is NULL or strictly greater than the current date. -/
theorem listTasks_upcoming_spec (s : Store) (today : String) (t : Task) :
    t ∈ listTasks s ⟨SmartView.upcoming, none, "", []⟩ today ↔
      t ∈ s.tasks ∧ t.completed = 0 ∧
        (t.dueAt = none ∨ ∃ d, t.dueAt = some d ∧ today < d) := by
  rw [mem_listTasks]
  simp only [searchOk_empty, tagOk_nil, projectOk_none, completedOk, beq_iff_eq,
    and_true]
  cases h : t.dueAt with
  | none => simp [dueOk, h]
  | some d => simp [dueOk, h, strLt_iff_lt, and_assoc]

/-- Claim C1 (counterexample): with a project scope present, the view's own
filters still apply; in the `today` view a completed task of the project is
not returned, although it belongs to the project. -/
theorem listTasks_project_scope_view_dependent :
    cxTask ∈ cxStore.tasks ∧ cxTask.projectId = some "p1" ∧
      cxTask ∉ listTasks cxStore ⟨SmartView.today, some "p1", "", []⟩ "2024-06-01" := by
  refine ⟨by decide, by decide, ?_⟩
  intro hmem
  rw [mem_listTasks] at hmem
  exact absurd hmem.2.1 (by decide)

/-- Claim C1 (amended): when a project scope is present and the view is `all`
(the view the UI always supplies together with a project scope), the result is
exactly the tasks of that project regardless of completion and due date, with
only the search and tag filters applied on top. -/
theorem listTasks_project_scoped_all (s : Store) (pid : String) (hpid : pid ≠ "")
    (search : String) (tagIds : List String) (today : String) (t : Task) :
    t ∈ listTasks s ⟨SmartView.all, some pid, search, tagIds⟩ today ↔
      t ∈ s.tasks ∧ t.projectId = some pid ∧
        searchOk search t = true ∧ tagOk s.taskTags tagIds t = true := by
  rw [mem_listTasks]
  simp [completedOk, dueOk, projectOk, projectScoped_some hpid, and_assoc]

/-- Witness for the amended claim C1 at a concrete input. -/
theorem listTasks_project_scoped_all_witness :
    cxTask ∈ listTasks cxStore ⟨SmartView.all, some "p1", "", []⟩ "2024-06-01" := by
  rw [listTasks_project_scoped_all cxStore "p1" (by decide) "" [] "2024-06-01" cxTask]
  refine ⟨by decide, by decide, searchOk_empty _, tagOk_nil _ _⟩

/-! The tag filter (claim C2). -/

theorem contains_iff_mem {l : List String} {x : String} :
    l.contains x = true ↔ x ∈ l := by
  simp [List.contains, List.elem_iff]

/-- The `HAVING COUNT(DISTINCT tag_id) = ids.length` clause is exactly the
superset test when the requested ids are a set of real (non-empty) ids. -/
theorem tagOk_iff_superset (assocs : List TaskTag) (tagIds : List String) (t : Task)
    (hnodup : tagIds.Nodup) (hne : tagIds ≠ []) (hnb : ∀ x ∈ tagIds, x ≠ "") :
    tagOk assocs tagIds t = true ↔ ∀ x ∈ tagIds, x ∈ taskTagIds assocs t := by
  have hids : tagIds.filter (fun x => !(x == "")) = tagIds := by
    rw [List.filter_eq_self]
    intro a ha
    simpa using hnb a ha
  have hemp : tagIds.isEmpty = false := List.isEmpty_eq_false.mpr hne
  unfold tagOk
  rw [hids]
  simp only [hemp, Bool.false_eq_true, if_false, beq_iff_eq]
  set matching :=
    ((assocs.filter (fun a => a.taskId == t.id && tagIds.contains a.tagId)).map
      TaskTag.tagId).dedup with hm
  have hmn : matching.Nodup := List.nodup_dedup _
  have hmsub : matching ⊆ tagIds := by
    intro x hx
    rw [hm, List.mem_dedup] at hx
    obtain ⟨a, ha, rfl⟩ := List.mem_map.mp hx
    have := (List.mem_filter.mp ha).2
    rw [Bool.and_eq_true] at this
    exact contains_iff_mem.mp this.2
  have hmtag : ∀ x ∈ matching, x ∈ taskTagIds assocs t := by
    intro x hx
    rw [hm, List.mem_dedup] at hx
    obtain ⟨a, ha, rfl⟩ := List.mem_map.mp hx
    have hf := List.mem_filter.mp ha
    rw [Bool.and_eq_true] at hf
    exact List.mem_map.mpr ⟨a, List.mem_filter.mpr ⟨hf.1, hf.2.1⟩, rfl⟩
  constructor
  · intro hlen x hx
    have hperm : matching.Perm tagIds :=
      (List.subperm_of_subset hmn hmsub).perm_of_length_le (le_of_eq hlen.symm)
    exact hmtag x (hperm.mem_iff.mpr hx)
  · intro hsup
    have htsub : tagIds ⊆ matching := by
      intro x hx
      obtain ⟨a, ha, rfl⟩ := List.mem_map.mp (hsup x hx)
      have hf := List.mem_filter.mp ha
      rw [hm, List.mem_dedup]
      refine List.mem_map.mpr ⟨a, List.mem_filter.mpr ⟨hf.1, ?_⟩, rfl⟩
      rw [Bool.and_eq_true]
      exact ⟨hf.2, contains_iff_mem.mpr hx⟩
    have h1 := (List.subperm_of_subset hmn hmsub).length_le
    have h2 := (List.subperm_of_subset hnodup htsub).length_le
    omega

/-- Claim C2: with a non-empty duplicate-free list of (real) tag ids, a task is
returned exactly when it passes the other filters and carries every requested
tag (AND semantics); a task with only a strict subset of the tags is excluded. -/
theorem listTasks_tag_and_semantics (s : Store) (view : SmartView) (pid : Option String)
    (search : String) (tagIds : List String) (today : String) (t : Task)
    (hnodup : tagIds.Nodup) (hne : tagIds ≠ []) (hnb : ∀ x ∈ tagIds, x ≠ "") :
    t ∈ listTasks s ⟨view, pid, search, tagIds⟩ today ↔
      (t ∈ s.tasks ∧ completedOk view t = true ∧ dueOk view today t = true ∧
        projectOk pid t = true ∧ searchOk search t = true) ∧
      ∀ x ∈ tagIds, x ∈ taskTagIds s.taskTags t := by
  rw [mem_listTasks]
  rw [tagOk_iff_superset s.taskTags tagIds t hnodup hne hnb]
  tauto

/-- Witness for claim C2, the spec's own example: filtering by
`{work, urgent}` includes the task tagged with both and excludes the task
tagged only `work`. -/
theorem listTasks_tag_and_semantics_witness :
    wTagT1 ∈ listTasks wTagStore ⟨SmartView.all, none, "", ["g1", "g2"]⟩ "d" ∧
    wTagT2 ∉ listTasks wTagStore ⟨SmartView.all, none, "", ["g1", "g2"]⟩ "d" := by
  constructor
  · rw [listTasks_tag_and_semantics wTagStore SmartView.all none "" ["g1", "g2"] "d"
      wTagT1 (by decide) (by decide) (by decide)]
    exact ⟨⟨by decide, by decide, by decide, by decide, by decide⟩, by decide⟩
  · rw [listTasks_tag_and_semantics wTagStore SmartView.all none "" ["g1", "g2"] "d"
      wTagT2 (by decide) (by decide) (by decide)]
    intro h
    exact absurd (h.2 "g2" (by decide)) (by decide)

/-! The project deletion operation (claims C3, C4, C10). -/

theorem ensureInbox_tasks (s : Store) (freshId now : String) :
    (ensureInboxProjectId s freshId now).1.tasks = s.tasks := by
  unfold ensureInboxProjectId
  split
  · rfl
  · split <;> rfl

theorem ensureInbox_projects_sub (s : Store) (freshId now : String) :
    ∀ p ∈ s.projects, p ∈ (ensureInboxProjectId s freshId now).1.projects := by
  intro p hp
  unfold ensureInboxProjectId
  split
  · exact hp
  · split
    · exact hp
    · exact List.mem_append_left _ hp

/-- Claim C4: deleting the project identified as the inbox (icon marker
`"inbox"`, or case-insensitive name `"inbox"`) always fails with the
protection error and leaves the store unchanged. -/
theorem deleteProject_protects_inbox (s : Store) (pid freshId now : String)
    (fault : Bool) (p : Project)
    (hfind : s.projects.find? (fun q => q.id == pid) = some p)
    (hinbox : p.icon = some "inbox" ∨ lowerStr p.name = "inbox") :
    deleteProjectMoveToInbox s pid freshId now fault =
      (s, some "Inbox cannot be deleted") := by
  unfold deleteProjectMoveToInbox
  rw [hfind]
  simp [hinbox]

/-- Witness for claim C4: the seeded Inbox project cannot be deleted, with or
without an injected storage fault. -/
theorem deleteProject_protects_inbox_witness :
    deleteProjectMoveToInbox wStore "p1" "f" "n" false =
      (wStore, some "Inbox cannot be deleted") ∧
    deleteProjectMoveToInbox wStore "p1" "f" "n" true =
      (wStore, some "Inbox cannot be deleted") :=
  ⟨deleteProject_protects_inbox wStore "p1" "f" "n" false wpInbox (by decide)
      (Or.inl (by decide)),
    deleteProject_protects_inbox wStore "p1" "f" "n" true wpInbox (by decide)
      (Or.inl (by decide))⟩

/-- Claim C10: deleting a project id that is not in the store returns without
an error and leaves the store entirely unchanged - in particular no inbox
project is lazily created and no task is touched. -/
theorem deleteProject_missing_id (s : Store) (pid freshId now : String) (fault : Bool)
    (h : s.projects.find? (fun q => q.id == pid) = none) :
    deleteProjectMoveToInbox s pid freshId now fault = (s, none) := by
  unfold deleteProjectMoveToInbox
  rw [h]

/-- Witness for claim C10 at a concrete store without the requested id. -/
theorem deleteProject_missing_id_witness :
    deleteProjectMoveToInbox wStore "absent" "f" "n" false = (wStore, none) ∧
    deleteProjectMoveToInbox wStore "absent" "f" "n" true = (wStore, none) :=
  ⟨deleteProject_missing_id wStore "absent" "f" "n" false (by decide),
    deleteProject_missing_id wStore "absent" "f" "n" true (by decide)⟩

/-- Claim C3: deleting a non-inbox project reassigns every one of its tasks to
the resolved inbox id bumping `updated_at` and removes the project row; when
the transaction fails partway it rolls back - no task is reassigned and the
project row still exists - and the error propagates. -/
theorem deleteProject_moves_tasks_spec (s : Store) (pid freshId now : String)
    (p : Project)
    (hfind : s.projects.find? (fun q => q.id == pid) = some p)
    (hicon : p.icon ≠ some "inbox") (hname : lowerStr p.name ≠ "inbox") :
    ((deleteProjectMoveToInbox s pid freshId now false).2 = none ∧
      (deleteProjectMoveToInbox s pid freshId now false).1.tasks =
        s.tasks.map (fun t =>
          if t.projectId = some pid then
            { t with projectId := some (ensureInboxProjectId s freshId now).2,
                     updatedAt := now }
          else t) ∧
      ∀ q ∈ (deleteProjectMoveToInbox s pid freshId now false).1.projects,
        q.id ≠ pid) ∧
    ((deleteProjectMoveToInbox s pid freshId now true).2 = some "transaction failed" ∧
      (deleteProjectMoveToInbox s pid freshId now true).1.tasks = s.tasks ∧
      ∃ q ∈ (deleteProjectMoveToInbox s pid freshId now true).1.projects,
        q.id = pid) := by
  have hnot : ¬ (p.icon = some "inbox" ∨ lowerStr p.name = "inbox") := by
    rintro (h | h)
    · exact hicon h
    · exact hname h
  have hpmem : p ∈ s.projects := List.mem_of_find?_eq_some hfind
  have hpid : p.id = pid := by
    have := List.find?_some hfind
    simpa [beq_iff_eq] using this
  unfold deleteProjectMoveToInbox
  rw [hfind]
  simp only []
  rw [if_neg hnot, if_neg hnot]
  constructor
  · refine ⟨rfl, ?_, ?_⟩
    · show ((ensureInboxProjectId s freshId now).1.tasks).map _ = s.tasks.map _
      rw [ensureInbox_tasks]
    · intro q hq
      have hq2 : q ∈ List.filter (fun q => !(q.id == pid))
          (ensureInboxProjectId s freshId now).1.projects := hq
      have h3 := (List.mem_filter.mp hq2).2
      simp only [Bool.not_eq_true'] at h3
      intro hqe
      simp [hqe] at h3
  · exact ⟨rfl, ensureInbox_tasks s freshId now, p,
      ensureInbox_projects_sub s freshId now p hpmem, hpid⟩

/-- Witness for claim C3: deleting the `Work` project of the concrete store
moves its task to the inbox id on success and leaves it in place on a fault. -/
theorem deleteProject_moves_tasks_witness :
    (deleteProjectMoveToInbox wStore "p2" "f" "n" false).2 = none ∧
    (deleteProjectMoveToInbox wStore "p2" "f" "n" true).1.tasks = wStore.tasks :=
  ⟨(deleteProject_moves_tasks_spec wStore "p2" "f" "n" wpWork (by decide) (by decide)
      (by decide)).1.1,
    (deleteProject_moves_tasks_spec wStore "p2" "f" "n" wpWork (by decide) (by decide)
      (by decide)).2.2.1⟩

/-! The reorder operation (claim C8). -/

/-- Unrolling the per-id UPDATE loop of `reorderTasks`: with duplicate-free
ids, each matching task ends at the index of its id (offset by the enumeration
start) and every other task is untouched. -/
theorem reorder_foldl (pid : Option String) (now : String) :
    ∀ (ids : List String), ids.Nodup → ∀ (k : Nat) (ts : List Task),
      (ids.enumFrom k).foldl
          (fun ts p =>
            ts.map (fun t =>
              if t.id == p.2 && t.projectId == pid then
                { t with sortOrder := (p.1 : Int), updatedAt := now }
              else t))
          ts
        = ts.map (fun t =>
            if ids.contains t.id && t.projectId == pid then
              { t with sortOrder := ((k + ids.indexOf t.id : Nat) : Int),
                       updatedAt := now }
            else t) := by
  intro ids
  induction ids with
  | nil =>
    intro _ k ts
    simp
  | cons i is ih =>
    intro hnod k ts
    obtain ⟨hnotmem, htl⟩ := List.nodup_cons.mp hnod
    rw [List.enumFrom_cons, List.foldl_cons, ih htl (k + 1), List.map_map]
    apply List.map_congr_left
    intro t _
    simp only [Function.comp_apply]
    by_cases hb2 : (t.projectId == pid) = true
    · by_cases hb1 : (t.id == i) = true
      · have hid : t.id = i := by simpa using hb1
        have hcont : is.contains i = false := by
          by_contra hc
          rw [Bool.not_eq_false] at hc
          exact hnotmem (contains_iff_mem.mp hc)
        simp only [hb1, hb2, hid, hcont, List.contains_cons]
        simp [hid]
        exact fun hmem => absurd hmem hnotmem
      · have hid : t.id ≠ i := by simpa using hb1
        by_cases hb3 : is.contains t.id = true
        · have hmem : t.id ∈ is := contains_iff_mem.mp hb3
          have hidx : List.indexOf t.id (i :: is) = (List.indexOf t.id is).succ :=
            List.indexOf_cons_ne is (Ne.symm hid)
          have harith : (k + 1 + List.indexOf t.id is : Nat)
              = (k + (List.indexOf t.id is).succ : Nat) := by omega
          simp [hb1, hb2, hb3, List.contains_cons, hidx, harith, hmem]
        · have hb3f : is.contains t.id = false := by simpa using hb3
          have hmem : t.id ∉ is := fun hm => by
            rw [contains_iff_mem.mpr hm] at hb3f
            exact Bool.true_eq_false.mp hb3f
          simp [hb1, hb2, hb3f, List.contains_cons, hid, hmem]
    · have hb2f : (t.projectId == pid) = false := by simpa using hb2
      simp [hb2f, List.contains_cons]

/-- Claim C8: `reorderTasks` rewrites each listed task's `sort_order` to its
0-based index in the list and refreshes `updated_at`, touching only tasks
whose `project_id` matches (NULL matching NULL); on the concrete three-task
project, reordering to `[id3, id1, id2]` makes the project-scoped listing
return exactly that order. -/
theorem reorderTasks_spec (s : Store) (pid : Option String) (ids : List String)
    (now : String) (hnodup : ids.Nodup) :
    ((reorderTasks s pid ids now).tasks
        = s.tasks.map (fun t =>
            if ids.contains t.id && t.projectId == pid then
              { t with sortOrder := ((ids.indexOf t.id : Nat) : Int),
                       updatedAt := now }
            else t)) ∧
    (listTasks (reorderTasks c8Store (some "p") ["id3", "id1", "id2"] "n")
        ⟨SmartView.all, some "p", "", []⟩ "d").map Task.id
      = ["id3", "id1", "id2"] := by
  constructor
  · show (ids.enumFrom 0).foldl _ s.tasks = _
    rw [reorder_foldl pid now ids hnodup 0 s.tasks]
    simp
  · decide

/-- Witness for claim C8 at the concrete three-task store. -/
theorem reorderTasks_spec_witness :
    (reorderTasks c8Store (some "p") ["id3", "id1", "id2"] "n").tasks
      = c8Store.tasks.map (fun t =>
          if ["id3", "id1", "id2"].contains t.id && t.projectId == some "p" then
            { t with sortOrder := ((["id3", "id1", "id2"].indexOf t.id : Nat) : Int),
                     updatedAt := "n" }
          else t) :=
  (reorderTasks_spec c8Store (some "p") ["id3", "id1", "id2"] "n" (by decide)).1

/-! Decimal rendering facts backing the `" (N)"` suffix disambiguation
(claim C6). -/

theorem digitChar_sub (d : Nat) (h : d < 10) : (Nat.digitChar d).toNat - 48 = d := by
  interval_cases d <;> decide

theorem parseDigits_toDigitsCore :
    ∀ (f n : Nat), n < f → ∀ (ds : List Char),
      parseDigits 0 (Nat.toDigitsCore 10 f n ds) = parseDigits n ds := by
  intro f
  induction f with
  | zero => intro n h; omega
  | succ f ih =>
    intro n h ds
    simp only [Nat.toDigitsCore]
    by_cases h0 : n / 10 = 0
    · rw [if_pos h0]
      show parseDigits (0 * 10 + ((Nat.digitChar (n % 10)).toNat - 48)) ds
        = parseDigits n ds
      rw [digitChar_sub (n % 10) (by omega)]
      have hn : n % 10 = n := by omega
      rw [Nat.zero_mul, Nat.zero_add, hn]
    · rw [if_neg h0]
      have hlt : n / 10 < f := by omega
      rw [ih (n / 10) hlt (Nat.digitChar (n % 10) :: ds)]
      show parseDigits ((n / 10) * 10 + ((Nat.digitChar (n % 10)).toNat - 48)) ds
        = parseDigits n ds
      rw [digitChar_sub (n % 10) (by omega)]
      congr 1
      omega

theorem parseDigits_repr (n : Nat) : parseDigits 0 (Nat.repr n).data = n := by
  have h : (Nat.repr n).data = Nat.toDigits 10 n := by
    simp [Nat.repr, List.asString]
  rw [h]
  unfold Nat.toDigits
  exact parseDigits_toDigitsCore (n + 1) n (Nat.lt_succ_self n) []

theorem repr_injective : Function.Injective Nat.repr := by
  intro n m h
  have h2 := congrArg (fun s => parseDigits 0 s.data) h
  simpa [parseDigits_repr] using h2

theorem toLower_digitChar (d : Nat) (h : d < 10) :
    Char.toLower (Nat.digitChar d) = Nat.digitChar d := by
  interval_cases d <;> decide

theorem toLower_toDigitsCore :
    ∀ (f n : Nat) (ds : List Char), (∀ c ∈ ds, Char.toLower c = c) →
      ∀ c ∈ Nat.toDigitsCore 10 f n ds, Char.toLower c = c := by
  intro f
  induction f with
  | zero =>
    intro n ds hds
    simpa [Nat.toDigitsCore] using hds
  | succ f ih =>
    intro n ds hds
    simp only [Nat.toDigitsCore]
    by_cases h0 : n / 10 = 0
    · rw [if_pos h0]
      intro c hc
      rcases List.mem_cons.mp hc with rfl | hc2
      · exact toLower_digitChar _ (by omega)
      · exact hds c hc2
    · rw [if_neg h0]
      apply ih
      intro c hc
      rcases List.mem_cons.mp hc with rfl | hc2
      · exact toLower_digitChar _ (by omega)
      · exact hds c hc2

theorem lowerStr_repr (n : Nat) : lowerStr (Nat.repr n) = Nat.repr n := by
  apply String.ext
  show (Nat.repr n).data.map Char.toLower = (Nat.repr n).data
  have h : (Nat.repr n).data = Nat.toDigits 10 n := by
    simp [Nat.repr, List.asString]
  rw [h]
  have h2 : ∀ c ∈ Nat.toDigits 10 n, Char.toLower c = c := by
    unfold Nat.toDigits
    exact toLower_toDigitsCore (n + 1) n [] (by simp)
  calc (Nat.toDigits 10 n).map Char.toLower
      = (Nat.toDigits 10 n).map id := List.map_congr_left h2
    _ = Nat.toDigits 10 n := List.map_id _

theorem string_append_cancel_left {a b c : String} (h : a ++ b = a ++ c) : b = c := by
  apply String.ext
  have h2 := congrArg String.data h
  rw [String.data_append, String.data_append] at h2
  exact List.append_cancel_left h2

theorem string_append_cancel_right {a b c : String} (h : a ++ c = b ++ c) : a = b := by
  apply String.ext
  have h2 := congrArg String.data h
  rw [String.data_append, String.data_append] at h2
  exact List.append_cancel_right h2

theorem lowerStr_append (a b : String) :
    lowerStr (a ++ b) = lowerStr a ++ lowerStr b := by
  apply String.ext
  rw [show (lowerStr (a ++ b)).data = (a ++ b).data.map Char.toLower from rfl]
  rw [show (lowerStr a ++ lowerStr b).data = (lowerStr a).data ++ (lowerStr b).data
    from String.data_append _ _]
  rw [show (lowerStr a).data = a.data.map Char.toLower from rfl]
  rw [show (lowerStr b).data = b.data.map Char.toLower from rfl]
  rw [String.data_append, List.map_append]

/-- Lowercasing the suffixed template equals suffixing the lowered base: the
space, parentheses and digits are fixed points of `Char.toLower`. -/
theorem lowerStr_suffixName (base : String) (n : Nat) :
    lowerStr (suffixName base n) = lowerCand (lowerStr base) n := by
  unfold suffixName lowerCand
  rw [lowerStr_append, lowerStr_append, lowerStr_append, lowerStr_repr]
  have h1 : lowerStr " (" = " (" := by decide
  have h2 : lowerStr ")" = ")" := by decide
  rw [h1, h2]

theorem lowerCand_injective (baseLower : String) {n m : Nat}
    (h : lowerCand baseLower n = lowerCand baseLower m) : n = m := by
  unfold lowerCand at h
  have h1 := string_append_cancel_right h
  exact repr_injective (string_append_cancel_left h1)

/-- Pigeonhole: among the first `lows.length + 1` candidates, some suffixed
name avoids every existing lowercased name. -/
theorem exists_free_candidate (lows : List String) (baseLower : String) :
    ∃ k, k < lows.length + 1 ∧ lowerCand baseLower (2 + k) ∉ lows := by
  by_contra hall
  push_neg at hall
  have hinj : Function.Injective (fun k : Nat => lowerCand baseLower (2 + k)) := by
    intro a b hab
    have h2 := lowerCand_injective baseLower hab
    omega
  have hnodup : ((List.range (lows.length + 1)).map
      (fun k => lowerCand baseLower (2 + k))).Nodup :=
    (List.nodup_range _).map hinj
  have hsub : ((List.range (lows.length + 1)).map
      (fun k => lowerCand baseLower (2 + k))) ⊆ lows := by
    intro x hx
    obtain ⟨k, hk, rfl⟩ := List.mem_map.mp hx
    exact hall k (List.mem_range.mp hk)
  have hle := (List.subperm_of_subset hnodup hsub).length_le
  rw [List.length_map, List.length_range] at hle
  omega

/-- Specification of the `while` loop: provided some candidate below the fuel
bound is free, the loop returns the first free candidate at or after `n`. -/
theorem firstFreeFrom_spec (lows : List String) (baseLower : String) :
    ∀ (fuel n : Nat),
      (∃ k, k < fuel ∧ lows.contains (lowerCand baseLower (n + k)) = false) →
      lows.contains (lowerCand baseLower (firstFreeFrom lows baseLower n fuel)) = false ∧
      n ≤ firstFreeFrom lows baseLower n fuel ∧
      ∀ m, n ≤ m → m < firstFreeFrom lows baseLower n fuel →
        lows.contains (lowerCand baseLower m) = true := by
  intro fuel
  induction fuel with
  | zero =>
    rintro n ⟨k, hk, _⟩
    omega
  | succ fuel ih =>
    rintro n ⟨k, hk, hfree⟩
    by_cases hc : lows.contains (lowerCand baseLower n) = true
    · have hrec : firstFreeFrom lows baseLower n (fuel + 1)
          = firstFreeFrom lows baseLower (n + 1) fuel := by
        simp only [firstFreeFrom, hc, if_true, ite_true]
      have hk0 : k ≠ 0 := by
        intro h0
        rw [h0, Nat.add_zero] at hfree
        rw [hfree] at hc
        cases hc
      have hex2 : ∃ j, j < fuel ∧
          lows.contains (lowerCand baseLower ((n + 1) + j)) = false := by
        refine ⟨k - 1, by omega, ?_⟩
        have harr : (n + 1) + (k - 1) = n + k := by omega
        rw [harr]
        exact hfree
      obtain ⟨ha, hb, hmin⟩ := ih (n + 1) hex2
      rw [hrec]
      refine ⟨ha, by omega, ?_⟩
      intro m hm1 hm2
      by_cases hmn : m = n
      · rw [hmn]; exact hc
      · exact hmin m (by omega) hm2
    · have hcf : lows.contains (lowerCand baseLower n) = false :=
        Bool.not_eq_true _ ▸ Bool.eq_false_iff.mpr hc
      have hrec : firstFreeFrom lows baseLower n (fuel + 1) = n := by
        simp only [firstFreeFrom, hcf, Bool.false_eq_true, if_false, ite_false]
      rw [hrec]
      exact ⟨hcf, Nat.le_refl n, fun m hm1 hm2 => by omega⟩

/-- Claim C6: when the trimmed input name collides case-insensitively with an
existing project name, `createProject` does not fail: it stores the name
`base (N)` for the first `N ≥ 2` whose lowercasing collides with no existing
name (every smaller suffix being taken), appends the new row, and the stored
name differs case-insensitively from every pre-existing project name - in
particular from the colliding project's, so both stay independently
resolvable. -/
theorem createProject_duplicate_spec (s : Store) (input : CreateProjectInput)
    (id createdAt : String) (p0 : Project) (hp0 : p0 ∈ s.projects)
    (hbase : trimStr input.name ≠ "")
    (hcollide : lowerStr p0.name = lowerStr (trimStr input.name)) :
    ∃ st p,
      createProject s input id createdAt = Except.ok (st, p) ∧
      st.projects = s.projects ++ [p] ∧
      p.id = id ∧
      (∃ n, 2 ≤ n ∧ p.name = suffixName (trimStr input.name) n ∧
        ∀ m, 2 ≤ m → m < n →
          lowerCand (lowerStr (trimStr input.name)) m ∈
            s.projects.map (fun q => lowerStr q.name)) ∧
      ∀ q ∈ s.projects, lowerStr p.name ≠ lowerStr q.name := by
  have hmem : lowerStr (trimStr input.name) ∈
      s.projects.map (fun q => lowerStr q.name) :=
    List.mem_map.mpr ⟨p0, hp0, hcollide⟩
  have hcontains : (s.projects.map (fun q => lowerStr q.name)).contains
      (lowerStr (trimStr input.name)) = true := contains_iff_mem.mpr hmem
  have hex : ∃ k, k < (s.projects.map (fun q => lowerStr q.name)).length + 1 ∧
      (s.projects.map (fun q => lowerStr q.name)).contains
        (lowerCand (lowerStr (trimStr input.name)) (2 + k)) = false := by
    obtain ⟨k, hk, hnot⟩ := exists_free_candidate
      (s.projects.map (fun q => lowerStr q.name)) (lowerStr (trimStr input.name))
    refine ⟨k, hk, ?_⟩
    rw [Bool.eq_false_iff]
    intro hc
    exact hnot (contains_iff_mem.mp hc)
  obtain ⟨hfree, h2le, hmin⟩ := firstFreeFrom_spec
    (s.projects.map (fun q => lowerStr q.name)) (lowerStr (trimStr input.name))
    ((s.projects.map (fun q => lowerStr q.name)).length + 1) 2 hex
  unfold createProject
  rw [if_neg hbase]
  simp only []
  rw [if_pos hcontains]
  refine ⟨_, _, rfl, rfl, rfl, ?_, ?_⟩
  · refine ⟨firstFreeFrom (s.projects.map (fun q => lowerStr q.name))
      (lowerStr (trimStr input.name)) 2
      ((s.projects.map (fun q => lowerStr q.name)).length + 1), h2le, rfl, ?_⟩
    intro m hm1 hm2
    exact contains_iff_mem.mp (hmin m hm1 hm2)
  · intro q hq heq
    have hval : lowerStr (suffixName (trimStr input.name)
        (firstFreeFrom (s.projects.map (fun q => lowerStr q.name))
          (lowerStr (trimStr input.name)) 2
          ((s.projects.map (fun q => lowerStr q.name)).length + 1)))
        ∈ s.projects.map (fun q => lowerStr q.name) :=
      List.mem_map.mpr ⟨q, hq, heq.symm⟩
    rw [lowerStr_suffixName] at hval
    rw [contains_iff_mem.mpr hval] at hfree
    cases hfree

/-- Witness for claim C6: creating `" work "` against a store already holding
`Work` stores the name `work (2)` and keeps both projects. -/
theorem createProject_duplicate_witness :
    ∃ st p,
      createProject c6Store ⟨" work ", none, none⟩ "p2" "b" = Except.ok (st, p) ∧
      st.projects = c6Store.projects ++ [p] ∧
      p.id = "p2" ∧
      (∃ n, 2 ≤ n ∧ p.name = suffixName (trimStr " work ") n ∧
        ∀ m, 2 ≤ m → m < n →
          lowerCand (lowerStr (trimStr " work ")) m ∈
            c6Store.projects.map (fun q => lowerStr q.name)) ∧
      ∀ q ∈ c6Store.projects, lowerStr p.name ≠ lowerStr q.name :=
  createProject_duplicate_spec c6Store ⟨" work ", none, none⟩ "p2" "b"
    ⟨"p1", "Work", none, none, 0, "a"⟩ (by decide) (by decide) (by decide)

/-! The task creation operation (claim C5). -/

/-- Claim C5 (counterexample): `createTask` performs no title validation; a
whitespace-only title is inserted as a task row whose stored title is the
empty string. -/
theorem createTask_inserts_blank_title :
    ((createTask emptyStore ⟨"   ", some "p1"⟩ "t1" "2024-01-01T00:00:00Z").1.tasks.length
        = 1) ∧
    ((createTask emptyStore ⟨"   ", some "p1"⟩ "t1" "2024-01-01T00:00:00Z").2.title
        = "") := by
  constructor
  · rfl
  · decide

/-- Claim C5 (amended): `createTask` trims the title and inserts the row
unconditionally - even when the trimmed title is empty - with the defaults
`completed = 0`, `priority = 0`, empty notes, no due date, and the next sort
order within the target project scope. -/
theorem createTask_spec (s : Store) (input : CreateTaskInput) (id createdAt : String) :
    (createTask s input id createdAt).1.tasks
        = s.tasks ++ [(createTask s input id createdAt).2] ∧
    (createTask s input id createdAt).2.title = trimStr input.title ∧
    (createTask s input id createdAt).2.projectId = input.projectId ∧
    (createTask s input id createdAt).2.completed = 0 ∧
    (createTask s input id createdAt).2.priority = 0 ∧
    (createTask s input id createdAt).2.notes = "" ∧
    (createTask s input id createdAt).2.dueAt = none ∧
    (createTask s input id createdAt).2.sortOrder =
      maxSortOrder ((s.tasks.filter (fun t =>
        t.projectId == input.projectId)).map Task.sortOrder) + 1 := by
  unfold createTask
  exact ⟨rfl, rfl, rfl, rfl, rfl, rfl, rfl, rfl⟩

/-! The backup codec (claim C9). -/

theorem storeExt {s1 s2 : Store} (h1 : s1.projects = s2.projects)
    (h2 : s1.tasks = s2.tasks) (h3 : s1.tags = s2.tags)
    (h4 : s1.taskTags = s2.taskTags) : s1 = s2 := by
  cases s1
  cases s2
  dsimp at h1 h2 h3 h4
  rw [h1, h2, h3, h4]

theorem upsertProject_not_skipped (s : Store) (p : Project)
    (h : ¬(p.id = "" ∨ p.name = "")) :
    (upsertProject s p).projects
        = s.projects.filter (fun q => !(q.id == p.id)) ++ [p] ∧
    (upsertProject s p).tasks.map Task.id = s.tasks.map Task.id ∧
    (upsertProject s p).tags = s.tags ∧
    (upsertProject s p).taskTags = s.taskTags := by
  unfold upsertProject
  rw [if_neg h]
  refine ⟨rfl, ?_, rfl, rfl⟩
  by_cases hc : s.projects.any (fun q => q.id == p.id) = true
  · simp only [hc, if_true, ite_true, List.map_map]
    apply List.map_congr_left
    intro t _
    by_cases ht : t.projectId = some p.id <;> simp [ht]
  · have hcf : s.projects.any (fun q => q.id == p.id) = false := by
      rw [Bool.eq_false_iff]; exact hc
    simp [hcf]

theorem upsertTask_not_skipped (s : Store) (t : Task)
    (h : ¬(t.id = "" ∨ t.title = "")) :
    (upsertTask s t).tasks = s.tasks.filter (fun q => !(q.id == t.id)) ++ [t] ∧
    (upsertTask s t).projects = s.projects ∧
    (upsertTask s t).tags = s.tags ∧
    (∀ a ∈ (upsertTask s t).taskTags, a ∈ s.taskTags) := by
  unfold upsertTask
  rw [if_neg h]
  refine ⟨rfl, rfl, rfl, ?_⟩
  intro a ha
  by_cases hc : s.tasks.any (fun q => q.id == t.id) = true
  · rw [show ((if s.tasks.any (fun q => q.id == t.id) = true then
        s.taskTags.filter (fun a => !(a.taskId == t.id)) else s.taskTags))
        = s.taskTags.filter (fun a => !(a.taskId == t.id)) from if_pos hc] at ha
    exact (List.mem_filter.mp ha).1
  · rw [show ((if s.tasks.any (fun q => q.id == t.id) = true then
        s.taskTags.filter (fun a => !(a.taskId == t.id)) else s.taskTags))
        = s.taskTags from if_neg hc] at ha
    exact ha

theorem upsertTag_not_skipped (s : Store) (g : Tag)
    (h : ¬(g.id = "" ∨ g.name = "")) :
    (upsertTag s g).tags
        = s.tags.filter (fun q => !(q.id == g.id || q.name == g.name)) ++ [g] ∧
    (upsertTag s g).projects = s.projects ∧
    (upsertTag s g).tasks = s.tasks ∧
    (∀ a ∈ (upsertTag s g).taskTags, a ∈ s.taskTags) := by
  unfold upsertTag
  rw [if_neg h]
  refine ⟨rfl, rfl, rfl, ?_⟩
  intro a ha
  exact (List.mem_filter.mp ha).1

theorem upsertTaskTag_not_skipped (s : Store) (a : TaskTag)
    (h : ¬(a.taskId = "" ∨ a.tagId = "")) :
    (upsertTaskTag s a).taskTags
        = s.taskTags.filter (fun q => !(q == a)) ++ [a] ∧
    (upsertTaskTag s a).projects = s.projects ∧
    (upsertTaskTag s a).tasks = s.tasks ∧
    (upsertTaskTag s a).tags = s.tags := by
  unfold upsertTaskTag
  rw [if_neg h]
  exact ⟨rfl, rfl, rfl, rfl⟩

theorem importProjects_spec :
    ∀ (ps : List Project) (s : Store),
      (∀ p ∈ ps, p.id ≠ "" ∧ p.name ≠ "") →
      ps.Pairwise (fun a b => a.id ≠ b.id) →
      (importProjects s ps).projects
          = s.projects.filter (fun q => ps.all (fun p => !(q.id == p.id))) ++ ps ∧
      (importProjects s ps).tasks.map Task.id = s.tasks.map Task.id ∧
      (importProjects s ps).tags = s.tags ∧
      (importProjects s ps).taskTags = s.taskTags := by
  intro ps
  induction ps with
  | nil =>
    intro s _ _
    exact ⟨by simp [importProjects], rfl, rfl, rfl⟩
  | cons p ps ih =>
    intro s hf hpw
    obtain ⟨hid, hname⟩ := hf p (List.mem_cons_self p ps)
    obtain ⟨hhead, htail⟩ := List.pairwise_cons.mp hpw
    have hskip : ¬(p.id = "" ∨ p.name = "") := by tauto
    have hup : importProjects s (p :: ps) = importProjects (upsertProject s p) ps := rfl
    obtain ⟨u1, u2, u3, u4⟩ := upsertProject_not_skipped s p hskip
    obtain ⟨h1, h2, h3, h4⟩ :=
      ih (upsertProject s p) (fun q hq => hf q (List.mem_cons_of_mem p hq)) htail
    refine ⟨?_, ?_, ?_, ?_⟩
    · rw [hup, h1, u1, List.filter_append, List.filter_filter]
      have hsingle : List.filter (fun q => ps.all (fun r => !(q.id == r.id))) [p]
          = [p] := by
        have hall : (ps.all (fun r => !(p.id == r.id))) = true := by
          rw [List.all_eq_true]
          intro r hr
          simpa using hhead r hr
        simp [List.filter, hall]
      rw [hsingle]
      have hpred : (fun (a : Project) =>
            (ps.all (fun r => !(a.id == r.id))) && !(a.id == p.id))
          = (fun a => (p :: ps).all (fun r => !(a.id == r.id))) := by
        funext a
        rw [List.all_cons, Bool.and_comm]
      rw [hpred, List.append_assoc, List.singleton_append]
    · rw [hup, h2, u2]
    · rw [hup, h3, u3]
    · rw [hup, h4, u4]

theorem importTasks_spec :
    ∀ (ts : List Task) (s : Store),
      (∀ t ∈ ts, t.id ≠ "" ∧ t.title ≠ "") →
      ts.Pairwise (fun a b => a.id ≠ b.id) →
      (importTasks s ts).tasks
          = s.tasks.filter (fun q => ts.all (fun t => !(q.id == t.id))) ++ ts ∧
      (importTasks s ts).projects = s.projects ∧
      (importTasks s ts).tags = s.tags ∧
      (∀ a ∈ (importTasks s ts).taskTags, a ∈ s.taskTags) := by
  intro ts
  induction ts with
  | nil =>
    intro s _ _
    exact ⟨by simp [importTasks], rfl, rfl, fun a ha => ha⟩
  | cons t ts ih =>
    intro s hf hpw
    obtain ⟨hid, htitle⟩ := hf t (List.mem_cons_self t ts)
    obtain ⟨hhead, htail⟩ := List.pairwise_cons.mp hpw
    have hskip : ¬(t.id = "" ∨ t.title = "") := by tauto
    have hup : importTasks s (t :: ts) = importTasks (upsertTask s t) ts := rfl
    obtain ⟨u1, u2, u3, u4⟩ := upsertTask_not_skipped s t hskip
    obtain ⟨h1, h2, h3, h4⟩ :=
      ih (upsertTask s t) (fun q hq => hf q (List.mem_cons_of_mem t hq)) htail
    refine ⟨?_, ?_, ?_, ?_⟩
    · rw [hup, h1, u1, List.filter_append, List.filter_filter]
      have hsingle : List.filter (fun q => ts.all (fun r => !(q.id == r.id))) [t]
          = [t] := by
        have hall : (ts.all (fun r => !(t.id == r.id))) = true := by
          rw [List.all_eq_true]
          intro r hr
          simpa using hhead r hr
        simp [List.filter, hall]
      rw [hsingle]
      have hpred : (fun (a : Task) =>
            (ts.all (fun r => !(a.id == r.id))) && !(a.id == t.id))
          = (fun a => (t :: ts).all (fun r => !(a.id == r.id))) := by
        funext a
        rw [List.all_cons, Bool.and_comm]
      rw [hpred, List.append_assoc, List.singleton_append]
    · rw [hup, h2, u2]
    · rw [hup, h3, u3]
    · intro a ha
      exact u4 a (h4 a ha)

theorem importTags_spec :
    ∀ (gs : List Tag) (s : Store),
      (∀ g ∈ gs, g.id ≠ "" ∧ g.name ≠ "") →
      gs.Pairwise (fun a b => a.id ≠ b.id ∧ a.name ≠ b.name) →
      (importTags s gs).tags
          = s.tags.filter
              (fun q => gs.all (fun g => !(q.id == g.id || q.name == g.name))) ++ gs ∧
      (importTags s gs).projects = s.projects ∧
      (importTags s gs).tasks = s.tasks ∧
      (∀ a ∈ (importTags s gs).taskTags, a ∈ s.taskTags) := by
  intro gs
  induction gs with
  | nil =>
    intro s _ _
    exact ⟨by simp [importTags], rfl, rfl, fun a ha => ha⟩
  | cons g gs ih =>
    intro s hf hpw
    obtain ⟨hid, hname⟩ := hf g (List.mem_cons_self g gs)
    obtain ⟨hhead, htail⟩ := List.pairwise_cons.mp hpw
    have hskip : ¬(g.id = "" ∨ g.name = "") := by tauto
    have hup : importTags s (g :: gs) = importTags (upsertTag s g) gs := rfl
    obtain ⟨u1, u2, u3, u4⟩ := upsertTag_not_skipped s g hskip
    obtain ⟨h1, h2, h3, h4⟩ :=
      ih (upsertTag s g) (fun q hq => hf q (List.mem_cons_of_mem g hq)) htail
    refine ⟨?_, ?_, ?_, ?_⟩
    · rw [hup, h1, u1, List.filter_append, List.filter_filter]
      have hsingle : List.filter
          (fun q => gs.all (fun r => !(q.id == r.id || q.name == r.name))) [g]
          = [g] := by
        have hall : (gs.all (fun r => !(g.id == r.id || g.name == r.name))) = true := by
          rw [List.all_eq_true]
          intro r hr
          have hr2 := hhead r hr
          simp [hr2.1, hr2.2]
        simp only [List.filter, hall]
      rw [hsingle]
      have hpred : (fun (a : Tag) =>
            (gs.all (fun r => !(a.id == r.id || a.name == r.name))) &&
              !(a.id == g.id || a.name == g.name))
          = (fun a => (g :: gs).all (fun r => !(a.id == r.id || a.name == r.name))) := by
        funext a
        rw [List.all_cons, Bool.and_comm]
      rw [hpred, List.append_assoc, List.singleton_append]
    · rw [hup, h2, u2]
    · rw [hup, h3, u3]
    · intro a ha
      exact u4 a (h4 a ha)

theorem importTaskTags_spec :
    ∀ (as : List TaskTag) (s : Store),
      (∀ a ∈ as, a.taskId ≠ "" ∧ a.tagId ≠ "") →
      as.Pairwise (fun a b => a ≠ b) →
      (importTaskTags s as).taskTags
          = s.taskTags.filter (fun q => as.all (fun a => !(q == a))) ++ as ∧
      (importTaskTags s as).projects = s.projects ∧
      (importTaskTags s as).tasks = s.tasks ∧
      (importTaskTags s as).tags = s.tags := by
  intro as
  induction as with
  | nil =>
    intro s _ _
    exact ⟨by simp [importTaskTags], rfl, rfl, rfl⟩
  | cons a as ih =>
    intro s hf hpw
    obtain ⟨hid, htag⟩ := hf a (List.mem_cons_self a as)
    obtain ⟨hhead, htail⟩ := List.pairwise_cons.mp hpw
    have hskip : ¬(a.taskId = "" ∨ a.tagId = "") := by tauto
    have hup : importTaskTags s (a :: as) = importTaskTags (upsertTaskTag s a) as := rfl
    obtain ⟨u1, u2, u3, u4⟩ := upsertTaskTag_not_skipped s a hskip
    obtain ⟨h1, h2, h3, h4⟩ :=
      ih (upsertTaskTag s a) (fun q hq => hf q (List.mem_cons_of_mem a hq)) htail
    refine ⟨?_, ?_, ?_, ?_⟩
    · rw [hup, h1, u1, List.filter_append, List.filter_filter]
      have hsingle : List.filter (fun q => as.all (fun r => !(q == r))) [a]
          = [a] := by
        have hall : (as.all (fun r => !(a == r))) = true := by
          rw [List.all_eq_true]
          intro r hr
          simpa using hhead r hr
        simp [List.filter, hall]
      rw [hsingle]
      have hpred : (fun (x : TaskTag) =>
            (as.all (fun r => !(x == r))) && !(x == a))
          = (fun x => (a :: as).all (fun r => !(x == r))) := by
        funext x
        rw [List.all_cons, Bool.and_comm]
      rw [hpred, List.append_assoc, List.singleton_append]
    · rw [hup, h2, u2]
    · rw [hup, h3, u3]
    · rw [hup, h4, u4]

/-- Importing a well-formed bundle into the empty store yields exactly the
bundle's rows. -/
theorem importBundle_empty (b : Bundle)
    (hp : ∀ p ∈ b.projects, p.id ≠ "" ∧ p.name ≠ "")
    (hpw : b.projects.Pairwise (fun a c => a.id ≠ c.id))
    (ht : ∀ t ∈ b.tasks, t.id ≠ "" ∧ t.title ≠ "")
    (htw : b.tasks.Pairwise (fun a c => a.id ≠ c.id))
    (hg : ∀ g ∈ b.tags, g.id ≠ "" ∧ g.name ≠ "")
    (hgw : b.tags.Pairwise (fun a c => a.id ≠ c.id ∧ a.name ≠ c.name))
    (ha : ∀ a ∈ b.task_tags, a.taskId ≠ "" ∧ a.tagId ≠ "")
    (haw : b.task_tags.Pairwise (fun a c => a ≠ c)) :
    importBundle emptyStore b = ⟨b.projects, b.tasks, b.tags, b.task_tags⟩ := by
  obtain ⟨p1, p2, p3, p4⟩ := importProjects_spec b.projects emptyStore hp hpw
  have s1proj : (importProjects emptyStore b.projects).projects = b.projects := by
    rw [p1]
    rfl
  have s1tasks : (importProjects emptyStore b.projects).tasks = [] :=
    List.map_eq_nil_iff.mp p2
  obtain ⟨t1, t2, t3, t4⟩ :=
    importTasks_spec b.tasks (importProjects emptyStore b.projects) ht htw
  have s2tasks :
      (importTasks (importProjects emptyStore b.projects) b.tasks).tasks = b.tasks := by
    rw [t1, s1tasks]
    rfl
  have s2proj :
      (importTasks (importProjects emptyStore b.projects) b.tasks).projects
        = b.projects := t2.trans s1proj
  have s2tags :
      (importTasks (importProjects emptyStore b.projects) b.tasks).tags = [] :=
    t3.trans p3
  have s2assoc :
      (importTasks (importProjects emptyStore b.projects) b.tasks).taskTags = [] := by
    rw [List.eq_nil_iff_forall_not_mem]
    intro a hma
    have h := t4 a hma
    rw [p4] at h
    simp [emptyStore] at h
  obtain ⟨g1, g2, g3, g4⟩ :=
    importTags_spec b.tags (importTasks (importProjects emptyStore b.projects) b.tasks)
      hg hgw
  have s3tags :
      (importTags (importTasks (importProjects emptyStore b.projects) b.tasks)
        b.tags).tags = b.tags := by
    rw [g1, s2tags]
    rfl
  have s3assoc :
      (importTags (importTasks (importProjects emptyStore b.projects) b.tasks)
        b.tags).taskTags = [] := by
    rw [List.eq_nil_iff_forall_not_mem]
    intro a hma
    have h := g4 a hma
    rw [s2assoc] at h
    simp at h
  obtain ⟨a1, a2, a3, a4⟩ :=
    importTaskTags_spec b.task_tags
      (importTags (importTasks (importProjects emptyStore b.projects) b.tasks) b.tags)
      ha haw
  apply storeExt
  · exact a2.trans (g2.trans s2proj)
  · exact a3.trans (g3.trans s2tasks)
  · exact a4.trans s3tags
  · show (importTaskTags
        (importTags (importTasks (importProjects emptyStore b.projects) b.tasks) b.tags)
        b.task_tags).taskTags = b.task_tags
    rw [a1, s3assoc]
    rfl

/-- Importing a well-formed bundle into a store that already holds exactly the
bundle's rows changes nothing: the merge is idempotent. -/
theorem importBundle_self (b : Bundle) (s : Store)
    (hp : ∀ p ∈ b.projects, p.id ≠ "" ∧ p.name ≠ "")
    (hpw : b.projects.Pairwise (fun a c => a.id ≠ c.id))
    (ht : ∀ t ∈ b.tasks, t.id ≠ "" ∧ t.title ≠ "")
    (htw : b.tasks.Pairwise (fun a c => a.id ≠ c.id))
    (hg : ∀ g ∈ b.tags, g.id ≠ "" ∧ g.name ≠ "")
    (hgw : b.tags.Pairwise (fun a c => a.id ≠ c.id ∧ a.name ≠ c.name))
    (ha : ∀ a ∈ b.task_tags, a.taskId ≠ "" ∧ a.tagId ≠ "")
    (haw : b.task_tags.Pairwise (fun a c => a ≠ c))
    (e1 : s.projects = b.projects) (e2 : s.tasks = b.tasks)
    (e3 : s.tags = b.tags) (e4 : s.taskTags = b.task_tags) :
    importBundle s b = s := by
  obtain ⟨p1, p2, p3, p4⟩ := importProjects_spec b.projects s hp hpw
  have s1proj : (importProjects s b.projects).projects = b.projects := by
    rw [p1]
    have hfil : s.projects.filter
        (fun q => b.projects.all (fun p => !(q.id == p.id))) = [] := by
      rw [List.filter_eq_nil_iff]
      intro q hq hpred
      rw [e1] at hq
      rw [List.all_eq_true] at hpred
      have h := hpred q hq
      simp at h
    rw [hfil, List.nil_append]
  have s1taskids :
      (importProjects s b.projects).tasks.map Task.id = b.tasks.map Task.id := by
    rw [p2, e2]
  obtain ⟨t1, t2, t3, t4⟩ := importTasks_spec b.tasks (importProjects s b.projects) ht htw
  have s2tasks :
      (importTasks (importProjects s b.projects) b.tasks).tasks = b.tasks := by
    rw [t1]
    have hfil : (importProjects s b.projects).tasks.filter
        (fun q => b.tasks.all (fun t => !(q.id == t.id))) = [] := by
      rw [List.filter_eq_nil_iff]
      intro q hq hpred
      have hqid : q.id ∈ (importProjects s b.projects).tasks.map Task.id :=
        List.mem_map_of_mem Task.id hq
      rw [s1taskids] at hqid
      obtain ⟨t, htmem, htid⟩ := List.mem_map.mp hqid
      rw [List.all_eq_true] at hpred
      have h := hpred t htmem
      rw [← htid] at h
      simp at h
    rw [hfil, List.nil_append]
  have s2proj :
      (importTasks (importProjects s b.projects) b.tasks).projects = b.projects :=
    t2.trans s1proj
  have s2tags :
      (importTasks (importProjects s b.projects) b.tasks).tags = b.tags :=
    t3.trans (p3.trans e3)
  have s2assoc : ∀ x ∈ (importTasks (importProjects s b.projects) b.tasks).taskTags,
      x ∈ b.task_tags := by
    intro x hx
    have h := t4 x hx
    rw [p4, e4] at h
    exact h
  obtain ⟨g1, g2, g3, g4⟩ :=
    importTags_spec b.tags (importTasks (importProjects s b.projects) b.tasks) hg hgw
  have s3tags :
      (importTags (importTasks (importProjects s b.projects) b.tasks) b.tags).tags
        = b.tags := by
    rw [g1]
    have hfil : (importTasks (importProjects s b.projects) b.tasks).tags.filter
        (fun q => b.tags.all (fun g => !(q.id == g.id || q.name == g.name))) = [] := by
      rw [List.filter_eq_nil_iff]
      intro q hq hpred
      rw [s2tags] at hq
      rw [List.all_eq_true] at hpred
      have h := hpred q hq
      simp at h
    rw [hfil, List.nil_append]
  have s3proj :
      (importTags (importTasks (importProjects s b.projects) b.tasks) b.tags).projects
        = b.projects := g2.trans s2proj
  have s3tasks :
      (importTags (importTasks (importProjects s b.projects) b.tasks) b.tags).tasks
        = b.tasks := g3.trans s2tasks
  have s3assoc : ∀ x ∈ (importTags (importTasks (importProjects s b.projects) b.tasks)
      b.tags).taskTags, x ∈ b.task_tags := by
    intro x hx
    exact s2assoc x (g4 x hx)
  obtain ⟨q1, q2, q3, q4⟩ :=
    importTaskTags_spec b.task_tags
      (importTags (importTasks (importProjects s b.projects) b.tasks) b.tags) ha haw
  have s4assoc :
      (importTaskTags (importTags (importTasks (importProjects s b.projects) b.tasks)
        b.tags) b.task_tags).taskTags = b.task_tags := by
    rw [q1]
    have hfil : (importTags (importTasks (importProjects s b.projects) b.tasks)
        b.tags).taskTags.filter
          (fun q => b.task_tags.all (fun a => !(q == a))) = [] := by
      rw [List.filter_eq_nil_iff]
      intro q hq hpred
      rw [List.all_eq_true] at hpred
      have h := hpred q (s3assoc q hq)
      simp at h
    rw [hfil, List.nil_append]
  apply storeExt
  · exact (q2.trans s3proj).trans e1.symm
  · exact (q3.trans s3tasks).trans e2.symm
  · exact (q4.trans s3tags).trans e3.symm
  · exact s4assoc.trans e4.symm

/-- Claim C9 (amended): for a store satisfying the schema's primary-key and
uniqueness constraints whose rows all carry non-empty identity and name/title
fields, importing an exported bundle into the empty store reproduces the same
set of projects, tasks, tags and associations, and importing the same bundle
again leaves the store exactly as after the first import. -/
theorem backup_roundtrip_and_reimport (s : Store) (ts : String)
    (hpid : (s.projects.map Project.id).Nodup)
    (htid : (s.tasks.map Task.id).Nodup)
    (hgid : (s.tags.map Tag.id).Nodup)
    (hgname : (s.tags.map Tag.name).Nodup)
    (hassoc : s.taskTags.Nodup)
    (hpf : ∀ p ∈ s.projects, p.id ≠ "" ∧ p.name ≠ "")
    (htf : ∀ t ∈ s.tasks, t.id ≠ "" ∧ t.title ≠ "")
    (hgf : ∀ g ∈ s.tags, g.id ≠ "" ∧ g.name ≠ "")
    (haf : ∀ a ∈ s.taskTags, a.taskId ≠ "" ∧ a.tagId ≠ "") :
    ((importBundle emptyStore (exportBundle s ts)).projects.Perm s.projects ∧
     (importBundle emptyStore (exportBundle s ts)).tasks.Perm s.tasks ∧
     (importBundle emptyStore (exportBundle s ts)).tags.Perm s.tags ∧
     (importBundle emptyStore (exportBundle s ts)).taskTags.Perm s.taskTags) ∧
    importBundle (importBundle emptyStore (exportBundle s ts)) (exportBundle s ts)
      = importBundle emptyStore (exportBundle s ts) := by
  have hbp : (exportBundle s ts).projects.Perm s.projects :=
    sortBy_perm projectLe s.projects
  have hbt : (exportBundle s ts).tasks.Perm s.tasks :=
    sortBy_perm taskLeCreated s.tasks
  have hbg : (exportBundle s ts).tags.Perm s.tags :=
    sortBy_perm tagLeName s.tags
  have hba : (exportBundle s ts).task_tags = s.taskTags := rfl
  have hpairp : (exportBundle s ts).projects.Pairwise (fun a c => a.id ≠ c.id) :=
    (hbp.pairwise_iff (fun h => h.symm)).mpr (List.pairwise_map.mp hpid)
  have hpairt : (exportBundle s ts).tasks.Pairwise (fun a c => a.id ≠ c.id) :=
    (hbt.pairwise_iff (fun h => h.symm)).mpr (List.pairwise_map.mp htid)
  have hpairg : (exportBundle s ts).tags.Pairwise
      (fun a c => a.id ≠ c.id ∧ a.name ≠ c.name) :=
    (hbg.pairwise_iff (fun h => ⟨h.1.symm, h.2.symm⟩)).mpr
      ((List.pairwise_map.mp hgid).and (List.pairwise_map.mp hgname))
  have hpaira : (exportBundle s ts).task_tags.Pairwise (fun a c => a ≠ c) := by
    rw [hba]
    exact hassoc
  have hfp : ∀ p ∈ (exportBundle s ts).projects, p.id ≠ "" ∧ p.name ≠ "" :=
    fun p hp => hpf p (hbp.mem_iff.mp hp)
  have hft : ∀ t ∈ (exportBundle s ts).tasks, t.id ≠ "" ∧ t.title ≠ "" :=
    fun t htm => htf t (hbt.mem_iff.mp htm)
  have hfg : ∀ g ∈ (exportBundle s ts).tags, g.id ≠ "" ∧ g.name ≠ "" :=
    fun g hgm => hgf g (hbg.mem_iff.mp hgm)
  have hfa : ∀ a ∈ (exportBundle s ts).task_tags, a.taskId ≠ "" ∧ a.tagId ≠ "" := by
    rw [hba]
    exact haf
  have hemp := importBundle_empty (exportBundle s ts)
    hfp hpairp hft hpairt hfg hpairg hfa hpaira
  constructor
  · rw [hemp]
    exact ⟨hbp, hbt, hbg, hba ▸ List.Perm.refl _⟩
  · exact importBundle_self (exportBundle s ts)
      (importBundle emptyStore (exportBundle s ts))
      hfp hpairp hft hpairt hfg hpairg hfa hpaira
      (by rw [hemp]) (by rw [hemp]) (by rw [hemp]) (by rw [hemp])

/-- Claim C9 (counterexample): export-then-import into an empty store is not
the identity on row sets in general - a task whose stored title is the empty
string (which `createTask` can produce) is silently skipped on import, so the
reimported task set is empty while the original store has one task. -/
theorem backup_roundtrip_loses_blank_title :
    (importBundle emptyStore (exportBundle c9BadStore "e")).tasks = [] ∧
    c9BadStore.tasks ≠ [] ∧
    ¬ (importBundle emptyStore (exportBundle c9BadStore "e")).tasks.Perm
        c9BadStore.tasks := by
  refine ⟨by decide, by decide, ?_⟩
  intro hperm
  have := hperm.length_eq
  revert this
  decide

/-- Witness for the amended claim C9 at a concrete well-formed store. -/
theorem backup_roundtrip_and_reimport_witness :
    (importBundle emptyStore (exportBundle c9Store "e")).tasks.Perm c9Store.tasks ∧
    importBundle (importBundle emptyStore (exportBundle c9Store "e"))
        (exportBundle c9Store "e")
      = importBundle emptyStore (exportBundle c9Store "e") := by
  have h := backup_roundtrip_and_reimport c9Store "e" (by decide) (by decide)
    (by decide) (by decide) (by decide) (by decide) (by decide) (by decide) (by decide)
  exact ⟨h.1.2.1, h.2⟩

end NeonTodo
